import Mathlib

/-
Verification of the detailed-placement import/export boundary of the dpo
engine (src/src/dpo/src/Optdp.cpp).  Coordinates are embedded as exact
rationals (the C++ code computes with doubles over integer database
coordinates); the C cast (int) of a double is embedded as truncation
toward zero on rationals.
-/

/-- Truncation toward zero, the behaviour of the C cast (int) applied to a
double value. -/
def ratTrunc (q : ℚ) : ℤ := if 0 ≤ q then ⌊q⌋ else -⌊-q⌋

theorem ratTrunc_intCast (a : ℤ) : ratTrunc (a : ℚ) = a := by
  rcases le_or_lt 0 (a : ℚ) with h | h
  · simp [ratTrunc, h]
  · rw [ratTrunc, if_neg (not_le.mpr h),
      show -(a : ℚ) = ((-a : ℤ) : ℚ) by push_cast; ring, Int.floor_intCast]
    ring

theorem ratTrunc_le_self (q : ℚ) (h : 0 ≤ q) : (ratTrunc q : ℚ) ≤ q := by
  rw [ratTrunc, if_pos h]
  exact Int.floor_le q

theorem ratTrunc_nonneg (q : ℚ) (h : 0 ≤ q) : 0 ≤ ratTrunc q := by
  rw [ratTrunc, if_pos h]
  exact Int.floor_nonneg.mpr h

/-- Internal orientations of the dpo model (Orientation_N and friends). -/
inductive Orient where
  | N
  | FN
  | FS
  | S
  | E
  | FE
  | W
  | FW
  deriving DecidableEq

/-- Database orientations (odb dbOrientType). -/
inductive DbOrient where
  | R0
  | R90
  | R180
  | R270
  | MY
  | MX
  | MYR90
  | MXR90
  deriving DecidableEq

/-- Row power-rail labels (RowPower_UNK, RowPower_VDD, RowPower_VSS). -/
inductive RowPower where
  | UNK
  | VDD
  | VSS
  deriving DecidableEq

/-- Signal types of database nets and terminals (odb dbSigType). -/
inductive SigType where
  | POWER
  | GROUND
  | SIGNAL
  deriving DecidableEq

/-- Orientation write-back switch of Optdp::updateDbInstLocations
(lines 207-224): N maps to R0, FN to MY, FS to MX, S to R180, and the
default branch leaves the initial R0. -/
def orientToDb : Orient → DbOrient
  | Orient.N => DbOrient.R0
  | Orient.FN => DbOrient.MY
  | Orient.FS => DbOrient.MX
  | Orient.S => DbOrient.R180
  | _ => DbOrient.R0

/-- The node fields read by the export write-back: center coordinates,
extents, current orientation and the fixed flag. -/
structure DpoNode where
  x : ℚ
  y : ℚ
  width : ℚ
  height : ℚ
  currOrient : Orient
  isFixed : Bool
  deriving DecidableEq

/-- The database-instance fields touched by the export write-back. -/
structure DbInstState where
  coreOrBlock : Bool
  locX : ℤ
  locY : ℤ
  orient : DbOrient
  deriving DecidableEq

/-- Result of processing one instance in Optdp::updateDbInstLocations:
the final instance state and whether setOrient or setLocation was called. -/
structure InstUpdate where
  inst : DbInstState
  orientWritten : Bool
  locationWritten : Bool
  deriving DecidableEq

/-- Body of the per-instance loop of Optdp::updateDbInstLocations
(lines 195-233): instances whose master is neither core nor block, or
which are not in the instance map, are untouched; otherwise x and y are
the node center minus half the extent, cast to int, the orientation is
translated, and setOrient and setLocation are called only when the new
value differs from the current one. -/
def updateDbInst (inst : DbInstState) (mapped : Option DpoNode) : InstUpdate :=
  if inst.coreOrBlock = false then ⟨inst, false, false⟩ else
  match mapped with
  | none => ⟨inst, false, false⟩
  | some nd =>
    let y := ratTrunc (nd.y - (1/2) * nd.height)
    let x := ratTrunc (nd.x - (1/2) * nd.width)
    let orient := orientToDb nd.currOrient
    let ow := decide (inst.orient ≠ orient)
    let inst1 : DbInstState :=
      if inst.orient ≠ orient then { inst with orient := orient } else inst
    let lw := decide (x ≠ inst1.locX ∨ y ≠ inst1.locY)
    let inst2 : DbInstState :=
      if x ≠ inst1.locX ∨ y ≠ inst1.locY then
        { inst1 with locX := x, locY := y }
      else inst1
    ⟨inst2, ow, lw⟩

/-- Loop of Optdp::updateDbInstLocations over all block instances, each
paired with its entry in the instance map (none when absent). -/
def updateDbInstLocations (insts : List (DbInstState × Option DpoNode)) :
    List InstUpdate :=
  insts.map (fun p => updateDbInst p.1 p.2)

/-- C1: for every FREE node, the export write-back computes the external
position as node-center minus half-width and half-height and a final
orientation, and issues a position or orientation update to the database
instance only when the computed value differs from the current one. -/
theorem updateDbInstLocations_free_writeback
    (inst : DbInstState) (nd : DpoNode) (a b : ℤ)
    (hcb : inst.coreOrBlock = true)
    (hfree : nd.isFixed = false)
    (ha : (a : ℚ) = nd.x - nd.width / 2)
    (hb : (b : ℚ) = nd.y - nd.height / 2) :
    (updateDbInst inst (some nd)).inst.locX = a ∧
    (updateDbInst inst (some nd)).inst.locY = b ∧
    (updateDbInst inst (some nd)).inst.orient = orientToDb nd.currOrient ∧
    ((updateDbInst inst (some nd)).orientWritten = true ↔
      orientToDb nd.currOrient ≠ inst.orient) ∧
    ((updateDbInst inst (some nd)).locationWritten = true ↔
      (a ≠ inst.locX ∨ b ≠ inst.locY)) := by
  have hx : ratTrunc (nd.x - (1/2) * nd.width) = a := by
    rw [show nd.x - (1/2) * nd.width = ((a : ℚ)) by rw [ha]; ring]
    exact ratTrunc_intCast a
  have hy : ratTrunc (nd.y - (1/2) * nd.height) = b := by
    rw [show nd.y - (1/2) * nd.height = ((b : ℚ)) by rw [hb]; ring]
    exact ratTrunc_intCast b
  simp only [updateDbInst, hcb, Bool.true_eq_false, if_false, hx, hy]
  by_cases horient : inst.orient ≠ orientToDb nd.currOrient <;>
    by_cases hloc : a ≠ inst.locX ∨ b ≠ inst.locY <;>
    simp [horient, hloc] <;> tauto

theorem updateDbInstLocations_free_writeback_witness :
    (updateDbInst ⟨true, 3, 4, DbOrient.R0⟩
      (some ⟨10, 20, 4, 8, Orient.FS, false⟩)).inst.locX = 8 ∧
    (updateDbInst ⟨true, 3, 4, DbOrient.R0⟩
      (some ⟨10, 20, 4, 8, Orient.FS, false⟩)).orientWritten = true := by
  have h := updateDbInstLocations_free_writeback
    ⟨true, 3, 4, DbOrient.R0⟩ ⟨10, 20, 4, 8, Orient.FS, false⟩ 8 16
    rfl rfl (by norm_num) (by norm_num)
  refine ⟨h.1, h.2.2.2.1.mpr ?_⟩
  simp [orientToDb]

/-- Bounding box of a master terminal (mTerm->getBBox()). -/
structure MTermBBox where
  bxMin : ℚ
  bxMax : ℚ
  byMin : ℚ
  byMax : ℚ
  deriving DecidableEq

/-- Pin geometry stored on a dpo Pin: offset from the node center and the
pin extents. -/
structure DpoPinGeom where
  offsetX : ℚ
  offsetY : ℚ
  pinWidth : ℚ
  pinHeight : ℚ
  deriving DecidableEq

/-- Pin geometry computed by Optdp::createNetwork for an instance pin
(lines 557-567).  Transcribed exactly from the source: ww and xx use
bxMax and bxMin, but hh subtracts byMax from byMax and yy adds byMax to
byMax (the source repeats getBBox().yMax() where the x axis uses the
min/max pair). -/
def pinFromITerm (bb : MTermBBox) (masterWidth masterHeight : ℚ) : DpoPinGeom :=
  let ww := bb.bxMax - bb.bxMin
  let hh := bb.byMax - bb.byMax
  let xx := (bb.bxMax + bb.bxMin) * (1/2)
  let yy := (bb.byMax + bb.byMax) * (1/2)
  let dx := xx - masterWidth / 2
  let dy := yy - masterHeight / 2
  ⟨dx, dy, ww, hh⟩

/-- C2: at a concrete instance pin whose master-terminal box is
(0,0)-(2,4) on a 10 by 8 master, the x axis follows the claim
(dx equals the geometry center minus half the master width, and the
stored width equals the geometry width), but the stored pin height is 0
instead of the geometry height 4, and the stored y offset is 0 instead
of geometry-center-y minus half the master height, which is -2. -/
theorem createNetwork_pin_offset_y_bug :
    pinFromITerm ⟨0, 2, 0, 4⟩ 10 8 =
      ⟨(2 + 0) * (1/2) - 10 / 2, 0, 2, 0⟩ ∧
    (pinFromITerm ⟨0, 2, 0, 4⟩ 10 8).offsetX = (0 + 2) / 2 - 10 / 2 ∧
    (pinFromITerm ⟨0, 2, 0, 4⟩ 10 8).pinWidth = 2 - 0 ∧
    (pinFromITerm ⟨0, 2, 0, 4⟩ 10 8).pinHeight = 0 ∧
    (4 : ℚ) - 0 = 4 ∧
    (pinFromITerm ⟨0, 2, 0, 4⟩ 10 8).pinHeight ≠ 4 - 0 ∧
    (0 + 4 : ℚ) / 2 - 8 / 2 = -2 ∧
    (pinFromITerm ⟨0, 2, 0, 4⟩ 10 8).offsetY ≠ (0 + 4) / 2 - 8 / 2 := by
  refine ⟨?_, ?_⟩
  · simp only [pinFromITerm]
    norm_num
  · norm_num [pinFromITerm]

/-- Allowed-orientation derivation of Optdp::createNetwork
(lines 437-449): the set starts from N; a master with both X and Y
symmetry additionally gets FN, FS and S; X symmetry alone adds FS; Y
symmetry alone adds FN. -/
def availOrients (symX symY : Bool) : List Orient :=
  Orient.N ::
    (if symX && symY then [Orient.FN, Orient.FS, Orient.S]
     else if symX then [Orient.FS]
     else if symY then [Orient.FN]
     else [])

/-- The database-instance fields read when creating a CELL node. -/
structure DbInstGeom where
  symX : Bool
  symY : Bool
  orient : DbOrient
  bboxXmin : ℚ
  bboxYmin : ℚ
  masterWidth : ℚ
  masterHeight : ℚ
  deriving DecidableEq

/-- The reset loop of Optdp::createNetwork (lines 404-410):
inst->setLocationOrient(dbOrientType::R0) returns every instance to the
canonical north orientation before geometry is read. -/
def setLocationOrientR0 (i : DbInstGeom) : DbInstGeom :=
  { i with orient := DbOrient.R0 }

/-- The orientation-related and geometric fields of a freshly imported
CELL node. -/
structure CellNodeBits where
  availOrient : List Orient
  currOrient : Orient
  x : ℚ
  y : ℚ
  deriving DecidableEq

/-- CELL-node population of Optdp::createNetwork (lines 414-477), the
fields relevant to orientation: the allowed set comes from the master
symmetry, the current orientation is set to N, and the center is the
bounding-box corner plus half the master extent. -/
def mkCellNode (i : DbInstGeom) : CellNodeBits :=
  { availOrient := availOrients i.symX i.symY
    currOrient := Orient.N
    x := i.bboxXmin + (1/2) * i.masterWidth
    y := i.bboxYmin + (1/2) * i.masterHeight }

/-- The two-phase import of Optdp::createNetwork: first every instance is
reset to R0 (lines 404-410), then nodes are built from the reset
instances (lines 414-477). -/
def populateCellNodes (insts : List DbInstGeom) : List CellNodeBits :=
  (insts.map setLocationOrientR0).map mkCellNode

/-- C3: the derived allowed-orientation set is N always, plus FN, FS, S
for masters with both symmetries, plus FS for X symmetry only, plus FN
for Y symmetry only; the current orientation of every imported CELL node
is N, the instances having been reset to the canonical orientation
before geometry is read. -/
theorem createNetwork_avail_orientations (insts : List DbInstGeom) :
    availOrients true true = [Orient.N, Orient.FN, Orient.FS, Orient.S] ∧
    availOrients true false = [Orient.N, Orient.FS] ∧
    availOrients false true = [Orient.N, Orient.FN] ∧
    availOrients false false = [Orient.N] ∧
    (∀ nd ∈ populateCellNodes insts, nd.currOrient = Orient.N) ∧
    (∀ i ∈ insts.map setLocationOrientR0, i.orient = DbOrient.R0) ∧
    (∀ nd ∈ populateCellNodes insts, ∃ i ∈ insts,
      nd = mkCellNode (setLocationOrientR0 i)) := by
  refine ⟨rfl, rfl, rfl, rfl, ?_, ?_, ?_⟩
  · intro nd hnd
    simp only [populateCellNodes, List.mem_map] at hnd
    obtain ⟨i, _, rfl⟩ := hnd
    rfl
  · intro i hi
    simp only [List.mem_map] at hi
    obtain ⟨j, _, rfl⟩ := hi
    rfl
  · intro nd hnd
    simp only [populateCellNodes, List.mem_map] at hnd
    obtain ⟨i, ⟨j, hj, rfl⟩, rfl⟩ := hnd
    exact ⟨j, hj, rfl⟩

theorem createNetwork_avail_orientations_witness :
    (mkCellNode (setLocationOrientR0
      ⟨true, false, DbOrient.MX, 0, 0, 4, 8⟩)).currOrient = Orient.N ∧
    (setLocationOrientR0
      ⟨true, false, DbOrient.MX, 0, 0, 4, 8⟩).orient = DbOrient.R0 := by
  have h := createNetwork_avail_orientations
    [⟨true, false, DbOrient.MX, 0, 0, 4, 8⟩]
  exact ⟨h.2.2.2.2.1 _ (by simp [populateCellNodes]),
         h.2.2.2.2.2.1 _ (by simp)⟩

/-- An axis-aligned rectangle with rational bounds (odb Rect). -/
structure RectQ where
  rxMin : ℚ
  ryMin : ℚ
  rxMax : ℚ
  ryMax : ℚ
  deriving DecidableEq

/-- A database row as read by Optdp::createArchitecture (lines 635-652):
direction, origin, site geometry and site count. -/
structure DbRowRec where
  horizontal : Bool
  originX : ℚ
  originY : ℚ
  siteWidth : ℚ
  siteHeight : ℚ
  spacing : ℚ
  siteCount : ℕ
  deriving DecidableEq

/-- An Architecture::Row as populated by Optdp::createArchitecture
(lines 645-684); the site count becomes an int so that the later
clipping may store the result of the int cast. -/
structure ArchRow where
  bottom : ℚ
  height : ℚ
  siteWidth : ℚ
  siteSpacing : ℚ
  subRowOrigin : ℚ
  numSites : ℤ
  powerBot : RowPower
  powerTop : RowPower
  deriving DecidableEq

/-- Modelled from the spec: Architecture::Row lives in architecture.h,
which is outside the inspected sources; per the spec a row starts at its
sub-row origin x. -/
def ArchRow.getLeft (r : ArchRow) : ℚ := r.subRowOrigin

/-- Modelled from the spec: the right end of the row site span, the
sub-row origin plus numSites sites of pitch siteSpacing. -/
def ArchRow.getRight (r : ArchRow) : ℚ :=
  r.subRowOrigin + r.numSites * r.siteSpacing

/-- Modelled from the spec: the top of a row is its bottom plus its
height. -/
def ArchRow.getTop (r : ArchRow) : ℚ := r.bottom + r.height

/-- Row creation of Optdp::createArchitecture (lines 645-655): bottom
from the row origin y, height and site width from the site, spacing and
site count from the row, power rails defaulted to UNKNOWN. -/
def mkArchRow (d : DbRowRec) : ArchRow :=
  { bottom := d.originY
    height := d.siteHeight
    siteWidth := d.siteWidth
    siteSpacing := d.spacing
    subRowOrigin := d.originX
    numSites := (d.siteCount : ℤ)
    powerBot := RowPower.UNK
    powerTop := RowPower.UNK }

/-- The row loop of Optdp::createArchitecture (lines 635-685) together
with the list of diagnostics it emits.  A row whose direction is not
horizontal is skipped by a bare continue whose branch holds only the
comment "error"; neither branch contains a logger call, so the
diagnostic list never grows. -/
def createArchRowsLoop : List DbRowRec → List ArchRow × List ℕ
  | [] => ([], [])
  | d :: ds =>
    let rest := createArchRowsLoop ds
    if d.horizontal then (mkArchRow d :: rest.1, rest.2)
    else (rest.1, rest.2)

theorem mem_createArchRowsLoop (l : List DbRowRec) (r : ArchRow)
    (hr : r ∈ (createArchRowsLoop l).1) :
    ∃ d ∈ l, d.horizontal = true ∧ r = mkArchRow d := by
  induction l with
  | nil => simp [createArchRowsLoop] at hr
  | cons d ds ih =>
    simp only [createArchRowsLoop] at hr
    by_cases hd : d.horizontal
    · rw [if_pos hd] at hr
      rcases List.mem_cons.mp hr with h | h
      · exact ⟨d, List.mem_cons_self d ds, hd, h⟩
      · obtain ⟨d2, hd2, hh, rfl⟩ := ih h
        exact ⟨d2, List.mem_cons_of_mem d hd2, hh, rfl⟩
    · rw [if_neg hd] at hr
      obtain ⟨d2, hd2, hh, rfl⟩ := ih hr
      exact ⟨d2, List.mem_cons_of_mem d hd2, hh, rfl⟩

/-- Bounding-box computation of Optdp::createArchitecture (lines
687-716), x part: the row extents are folded with min and max, and when
that union disagrees with the die rectangle on the left or the right the
die x bounds are taken instead.  With no rows the sentinel DBL_MAX
bounds never match a real die bound, so the die bounds are taken. -/
def archBoundsX (rows : List ArchRow) (die : RectQ) : ℚ × ℚ :=
  match rows with
  | [] => (die.rxMin, die.rxMax)
  | r :: rs =>
    let xmin := rs.foldl (fun acc row => min acc row.getLeft) r.getLeft
    let xmax := rs.foldl (fun acc row => max acc row.getRight) r.getRight
    if xmin ≠ die.rxMin ∨ xmax ≠ die.rxMax then (die.rxMin, die.rxMax)
    else (xmin, xmax)

/-- Row clipping of Optdp::createArchitecture (lines 718-741): when the
row span leaves [minX, maxX], the origin is raised to minX if it was
below, and if the recomputed right end still exceeds maxX the site count
becomes the int cast of (maxX - origin) / siteSpacing. -/
def clipRowToX (minX maxX : ℚ) (r : ArchRow) : ArchRow :=
  let lx := r.getLeft
  let rx := r.getLeft + r.numSites * r.siteSpacing
  if lx < minX ∨ rx > maxX then
    let originX2 := if lx < minX then minX else r.getLeft
    let rx2 := originX2 + r.numSites * r.siteSpacing
    let numSites2 :=
      if rx2 > maxX then ratTrunc ((maxX - originX2) / r.siteSpacing)
      else r.numSites
    { r with subRowOrigin := originX2, numSites := numSites2 }
  else r

/-- The geometric part of the architecture built by
Optdp::createArchitecture: the surviving rows after clipping and the x
bounds. -/
structure ArchGeom where
  rows : List ArchRow
  minX : ℚ
  maxX : ℚ
  deriving DecidableEq

/-- Geometric phase of Optdp::createArchitecture (lines 635-741): build
rows from horizontal database rows, derive the x bounds against the die
rectangle, then clip every row. -/
def createArchitectureGeom (dbRows : List DbRowRec) (die : RectQ) : ArchGeom :=
  let rows := (createArchRowsLoop dbRows).1
  let b := archBoundsX rows die
  { rows := rows.map (clipRowToX b.1 b.2), minX := b.1, maxX := b.2 }

theorem clipRowToX_siteSpacing (minX maxX : ℚ) (r : ArchRow) :
    (clipRowToX minX maxX r).siteSpacing = r.siteSpacing := by
  simp only [clipRowToX]
  split <;> rfl

theorem clipRowToX_spec (minX maxX : ℚ) (r : ArchRow)
    (hns : 0 ≤ r.numSites) (hs : 0 < r.siteSpacing)
    (ho : (clipRowToX minX maxX r).subRowOrigin ≤ maxX) :
    minX ≤ (clipRowToX minX maxX r).getLeft ∧
    (clipRowToX minX maxX r).getLeft ≤ (clipRowToX minX maxX r).getRight ∧
    (clipRowToX minX maxX r).getRight ≤ maxX := by
  have hmono : 0 ≤ (r.numSites : ℚ) * r.siteSpacing :=
    mul_nonneg (by exact_mod_cast hns) (le_of_lt hs)
  simp only [clipRowToX, ArchRow.getLeft, ArchRow.getRight] at ho ⊢
  by_cases hcond : r.subRowOrigin < minX ∨
      r.subRowOrigin + (r.numSites : ℚ) * r.siteSpacing > maxX
  · simp only [if_pos hcond] at ho ⊢
    have ho2min : minX ≤ (if r.subRowOrigin < minX then minX else r.subRowOrigin) := by
      split
      · exact le_rfl
      · next h => exact not_lt.mp h
    by_cases hrx : (if r.subRowOrigin < minX then minX else r.subRowOrigin) +
        (r.numSites : ℚ) * r.siteSpacing > maxX
    · simp only [if_pos hrx] at ho ⊢
      set o2 := (if r.subRowOrigin < minX then minX else r.subRowOrigin) with hdef
      have hq : 0 ≤ (maxX - o2) / r.siteSpacing :=
        div_nonneg (by linarith) (le_of_lt hs)
      have h1 : (0 : ℚ) ≤ (ratTrunc ((maxX - o2) / r.siteSpacing) : ℚ) := by
        exact_mod_cast ratTrunc_nonneg _ hq
      have h2 : (ratTrunc ((maxX - o2) / r.siteSpacing) : ℚ) ≤
          (maxX - o2) / r.siteSpacing := ratTrunc_le_self _ hq
      have h3 : (ratTrunc ((maxX - o2) / r.siteSpacing) : ℚ) * r.siteSpacing ≤
          maxX - o2 := by
        calc (ratTrunc ((maxX - o2) / r.siteSpacing) : ℚ) * r.siteSpacing
            ≤ ((maxX - o2) / r.siteSpacing) * r.siteSpacing :=
              mul_le_mul_of_nonneg_right h2 (le_of_lt hs)
          _ = maxX - o2 := div_mul_cancel₀ _ (ne_of_gt hs)
      have h4 : 0 ≤ (ratTrunc ((maxX - o2) / r.siteSpacing) : ℚ) * r.siteSpacing :=
        mul_nonneg h1 (le_of_lt hs)
      exact ⟨ho2min, by linarith, by linarith⟩
    · simp only [if_neg hrx] at ho ⊢
      exact ⟨ho2min, by linarith, by linarith [not_lt.mp hrx]⟩
  · simp only [if_neg hcond] at ho ⊢
    push_neg at hcond
    exact ⟨hcond.1, by linarith, hcond.2⟩

/-- C4 counterexample: with die x bounds [0, 10] and a single horizontal
row at origin 15 with one site of pitch 2, the bounds disagree, so the
architecture takes the die x bounds [0, 10]; the clipped row keeps
origin 15 and gets site count trunc((10 - 15) / 2) = -2, so its right
end 15 + (-2) * 2 = 11 exceeds maxX = 10: the clipped site count does
not keep origin + numSites * siteSpacing within max-x and the row span
does not lie within [minX, maxX]. -/
theorem createArchitecture_clip_cex :
    (createArchitectureGeom [⟨true, 15, 0, 1, 2, 2, 1⟩] ⟨0, 0, 10, 10⟩).minX = 0 ∧
    (createArchitectureGeom [⟨true, 15, 0, 1, 2, 2, 1⟩] ⟨0, 0, 10, 10⟩).maxX = 10 ∧
    (createArchitectureGeom [⟨true, 15, 0, 1, 2, 2, 1⟩] ⟨0, 0, 10, 10⟩).rows.map
      ArchRow.getRight = [11] ∧
    ¬ (11 : ℚ) ≤ 10 := by
  refine ⟨?_, ?_, ?_, by norm_num⟩ <;>
    norm_num [createArchitectureGeom, createArchRowsLoop, mkArchRow, archBoundsX,
      clipRowToX, ArchRow.getLeft, ArchRow.getRight, ratTrunc]

/-- C4 amended: after bounds derivation (die x bounds authoritative on
disagreement) and clipping, every surviving row whose site spacing is
positive and whose clipped origin does not exceed max-x has its site
span within [minX, maxX]; without the origin condition a row lying
wholly to the right of max-x receives a negative site count from the
truncating int cast and its span can exceed max-x. -/
theorem createArchitecture_clip_within_bounds
    (dbRows : List DbRowRec) (die : RectQ) (r : ArchRow)
    (hr : r ∈ (createArchitectureGeom dbRows die).rows)
    (hs : 0 < r.siteSpacing)
    (ho : r.subRowOrigin ≤ (createArchitectureGeom dbRows die).maxX) :
    (createArchitectureGeom dbRows die).minX ≤ r.getLeft ∧
    r.getLeft ≤ r.getRight ∧
    r.getRight ≤ (createArchitectureGeom dbRows die).maxX := by
  simp only [createArchitectureGeom, List.mem_map] at hr
  obtain ⟨r0, hr0, rfl⟩ := hr
  obtain ⟨d, hd, hdir, rfl⟩ := mem_createArchRowsLoop _ _ hr0
  have hns : 0 ≤ (mkArchRow d).numSites := Int.ofNat_nonneg d.siteCount
  have hs0 : 0 < (mkArchRow d).siteSpacing := by
    rwa [clipRowToX_siteSpacing] at hs
  exact clipRowToX_spec _ _ _ hns hs0 ho

theorem createArchitecture_clip_within_bounds_witness :
    (createArchitectureGeom [⟨true, 2, 0, 1, 2, 2, 3⟩] ⟨0, 0, 10, 10⟩).minX ≤
      (clipRowToX 0 10 (mkArchRow ⟨true, 2, 0, 1, 2, 2, 3⟩)).getLeft ∧
    (clipRowToX 0 10 (mkArchRow ⟨true, 2, 0, 1, 2, 2, 3⟩)).getLeft ≤
      (clipRowToX 0 10 (mkArchRow ⟨true, 2, 0, 1, 2, 2, 3⟩)).getRight ∧
    (clipRowToX 0 10 (mkArchRow ⟨true, 2, 0, 1, 2, 2, 3⟩)).getRight ≤
      (createArchitectureGeom [⟨true, 2, 0, 1, 2, 2, 3⟩] ⟨0, 0, 10, 10⟩).maxX := by
  have hmem : clipRowToX 0 10 (mkArchRow ⟨true, 2, 0, 1, 2, 2, 3⟩) ∈
      (createArchitectureGeom [⟨true, 2, 0, 1, 2, 2, 3⟩] ⟨0, 0, 10, 10⟩).rows := by
    norm_num [createArchitectureGeom, createArchRowsLoop, archBoundsX,
      ArchRow.getLeft, ArchRow.getRight, mkArchRow]
  exact createArchitecture_clip_within_bounds
    [⟨true, 2, 0, 1, 2, 2, 3⟩] ⟨0, 0, 10, 10⟩ _ hmem
    (by norm_num [clipRowToX, mkArchRow, ArchRow.getLeft])
    (by norm_num [createArchitectureGeom, createArchRowsLoop, archBoundsX,
      clipRowToX, mkArchRow, ArchRow.getLeft])

/-- C8 counterexample: a database row with non-horizontal direction is
skipped and contributes no architecture row, but the loop emits no
diagnostic: the skip branch holds only a comment. -/
theorem createArchitecture_row_reject_cex :
    (⟨false, 0, 0, 1, 2, 2, 5⟩ : DbRowRec).horizontal = false ∧
    createArchRowsLoop [⟨false, 0, 0, 1, 2, 2, 5⟩] = ([], []) := by
  exact ⟨rfl, rfl⟩

/-- C8 amended: a row whose direction is not horizontal is silently
skipped (no diagnostic is emitted for it), the rejection is non-fatal,
construction continues over the remaining rows, and every surviving
architecture row comes from a horizontal database row. -/
theorem createArchitecture_row_reject (dbRows : List DbRowRec) :
    (createArchRowsLoop dbRows).1 =
      (dbRows.filter (fun d => d.horizontal)).map mkArchRow ∧
    (createArchRowsLoop dbRows).2 = [] ∧
    (∀ r ∈ (createArchRowsLoop dbRows).1, ∃ d ∈ dbRows,
      d.horizontal = true ∧ r = mkArchRow d) := by
  refine ⟨?_, ?_, fun r hr => mem_createArchRowsLoop dbRows r hr⟩
  · induction dbRows with
    | nil => rfl
    | cons d ds ih =>
      simp only [createArchRowsLoop, List.filter]
      by_cases hd : d.horizontal
      · simp [hd, ih]
      · simp [hd, ih]
  · induction dbRows with
    | nil => rfl
    | cons d ds ih =>
      simp only [createArchRowsLoop]
      by_cases hd : d.horizontal
      · simp [hd, ih]
      · simp [hd, ih]

theorem createArchitecture_row_reject_witness :
    mkArchRow ⟨true, 2, 0, 1, 2, 2, 3⟩ ∈
      (createArchRowsLoop [⟨false, 0, 0, 1, 2, 2, 5⟩, ⟨true, 2, 0, 1, 2, 2, 3⟩]).1 ∧
    (⟨true, 2, 0, 1, 2, 2, 3⟩ : DbRowRec).horizontal = true := by
  have h := createArchitecture_row_reject
    [⟨false, 0, 0, 1, 2, 2, 5⟩, ⟨true, 2, 0, 1, 2, 2, 3⟩]
  have hmem : mkArchRow ⟨true, 2, 0, 1, 2, 2, 3⟩ ∈
      (createArchRowsLoop [⟨false, 0, 0, 1, 2, 2, 5⟩, ⟨true, 2, 0, 1, 2, 2, 3⟩]).1 := by
    rw [h.1]
    simp
  obtain ⟨d, hd, hdir, hEq⟩ := h.2.2 _ hmem
  exact ⟨hmem, by simp⟩

/-- A master-pin geometry as read by Optdp::setupMasterPowers: the pin
box y extent and the layers of its geometry boxes. -/
structure MPinRec where
  byMin : ℚ
  byMax : ℚ
  geomLayers : List ℕ
  deriving DecidableEq

/-- A master terminal: signal type and pins. -/
structure MTermRec where
  sig : SigType
  mpins : List MPinRec
  deriving DecidableEq

/-- A master: its terminals. -/
structure MasterRec where
  mterms : List MTermRec
  deriving DecidableEq

/-- Layers recorded into pwrLayers_ by Optdp::setupMasterPowers
(lines 311-324): the geometry layers of every POWER master-terminal
pin. -/
def recordedPwrLayers (masters : List MasterRec) : List ℕ :=
  masters.foldr (fun m acc =>
    (m.mterms.foldr (fun t acc2 =>
      if t.sig = SigType.POWER then
        t.mpins.foldr (fun p acc3 => p.geomLayers ++ acc3) [] ++ acc2
      else acc2) []) ++ acc) []

/-- Layers recorded into gndLayers_ by Optdp::setupMasterPowers
(lines 325-338): the geometry layers of every GROUND master-terminal
pin. -/
def recordedGndLayers (masters : List MasterRec) : List ℕ :=
  masters.foldr (fun m acc =>
    (m.mterms.foldr (fun t acc2 =>
      if t.sig = SigType.GROUND then
        t.mpins.foldr (fun p acc3 => p.geomLayers ++ acc3) [] ++ acc2
      else acc2) []) ++ acc) []

/-- The pwrLayers_ and gndLayers_ member sets of Optdp. -/
structure LayerSets where
  pwr : List ℕ
  gnd : List ℕ
  deriving DecidableEq

/-- Layer recording of Optdp::setupMasterPowers. -/
def setupMasterPowersLayers (masters : List MasterRec) : LayerSets :=
  ⟨recordedPwrLayers masters, recordedGndLayers masters⟩

/-- Effect of Optdp::createNetwork on the recorded layer sets
(lines 360-361): pwrLayers_.clear() and gndLayers_.clear() empty both
sets.  In Optdp::import, createNetwork runs after setupMasterPowers and
before createArchitecture. -/
def createNetworkLayerEffect (s : LayerSets) : LayerSets := ⟨[], []⟩

/-- A special-wire box as read by Optdp::createArchitecture
(lines 763-782): direction, via flag, layer and rectangle y extent. -/
structure SBoxRec where
  horizontal : Bool
  isVia : Bool
  layer : ℕ
  ryMin : ℚ
  ryMax : ℚ
  deriving DecidableEq

/-- A special wire: wire type (routed or not) and its boxes. -/
structure SWireRec where
  routed : Bool
  boxes : List SBoxRec
  deriving DecidableEq

/-- A database net as read by the power loop of
Optdp::createArchitecture: special flag, signal type, special wires. -/
structure SNetRec where
  special : Bool
  sig : SigType
  swires : List SWireRec
  deriving DecidableEq

/-- The shape filter of Optdp::createArchitecture (lines 764-779): a box
is used only if it is horizontal, not a via, and its layer belongs to
the recorded power layers (for a VDD net) or ground layers (for a VSS
net). -/
def sboxQualifies (sets : LayerSets) (pwr : RowPower) (b : SBoxRec) : Bool :=
  b.horizontal && !b.isVia &&
    (match pwr with
     | RowPower.VDD => sets.pwr.contains b.layer
     | RowPower.VSS => sets.gnd.contains b.layer
     | RowPower.UNK => true)

/-- The row update of Optdp::createArchitecture (lines 783-793): a
qualifying shape sets powerBot on every row whose bottom lies in the box
y extent and powerTop on every row whose top lies in it. -/
def applyShapeToRow (pwr : RowPower) (b : SBoxRec) (r : ArchRow) : ArchRow :=
  let r1 := if b.ryMin ≤ r.bottom ∧ r.bottom ≤ b.ryMax then
    { r with powerBot := pwr } else r
  if b.ryMin ≤ r.getTop ∧ r.getTop ≤ b.ryMax then
    { r1 with powerTop := pwr } else r1

/-- One special wire of Optdp::createArchitecture (lines 758-794):
non-routed wires are skipped, and each qualifying box updates every
row. -/
def applySWire (sets : LayerSets) (pwr : RowPower) (w : SWireRec)
    (rows : List ArchRow) : List ArchRow :=
  if w.routed = false then rows
  else w.boxes.foldl (fun rs b =>
    if sboxQualifies sets pwr b then rs.map (applyShapeToRow pwr b) else rs) rows

/-- One net of the power loop of Optdp::createArchitecture
(lines 748-795): non-special nets and nets that are neither POWER nor
GROUND are skipped; POWER nets label VDD and GROUND nets label VSS. -/
def applySNet (sets : LayerSets) (net : SNetRec) (rows : List ArchRow) :
    List ArchRow :=
  if net.special = false then rows
  else if ¬(net.sig = SigType.POWER ∨ net.sig = SigType.GROUND) then rows
  else
    let pwr := if net.sig = SigType.POWER then RowPower.VDD else RowPower.VSS
    net.swires.foldl (fun rs w => applySWire sets pwr w rs) rows

/-- The full power loop of Optdp::createArchitecture over all nets. -/
def setRowPowers (sets : LayerSets) (nets : List SNetRec)
    (rows : List ArchRow) : List ArchRow :=
  nets.foldl (fun rs net => applySNet sets net rs) rows

/-- The row power phase as the Optdp::import pipeline actually executes
it: setupMasterPowers records the layers, createNetwork clears them,
createArchitecture then filters every shape against the cleared sets. -/
def importRowPowers (masters : List MasterRec) (nets : List SNetRec)
    (rows : List ArchRow) : List ArchRow :=
  setRowPowers (createNetworkLayerEffect (setupMasterPowersLayers masters))
    nets rows

theorem sboxQualifies_empty (pwr : RowPower) (b : SBoxRec)
    (hp : pwr ≠ RowPower.UNK) : sboxQualifies ⟨[], []⟩ pwr b = false := by
  cases pwr with
  | UNK => exact absurd rfl hp
  | VDD => simp [sboxQualifies]
  | VSS => simp [sboxQualifies]

theorem applySWire_empty (pwr : RowPower) (w : SWireRec)
    (rows : List ArchRow) (hp : pwr ≠ RowPower.UNK) :
    applySWire ⟨[], []⟩ pwr w rows = rows := by
  unfold applySWire
  split
  · rfl
  · induction w.boxes generalizing rows with
    | nil => rfl
    | cons b bs ih =>
      rw [List.foldl_cons, sboxQualifies_empty pwr b hp]
      simp only [Bool.false_eq_true, if_false]
      exact ih rows

theorem applySNet_empty (net : SNetRec) (rows : List ArchRow) :
    applySNet ⟨[], []⟩ net rows = rows := by
  unfold applySNet
  split
  · rfl
  · split
    · rfl
    · have hp : (if net.sig = SigType.POWER then RowPower.VDD else RowPower.VSS) ≠
          RowPower.UNK := by
        split <;> simp
      induction net.swires generalizing rows with
      | nil => rfl
      | cons w ws ih =>
        rw [List.foldl_cons, applySWire_empty _ w rows hp]
        exact ih rows

theorem setRowPowers_empty (nets : List SNetRec) (rows : List ArchRow) :
    setRowPowers ⟨[], []⟩ nets rows = rows := by
  induction nets generalizing rows with
  | nil => rfl
  | cons net ns ih =>
    rw [setRowPowers, List.foldl_cons, applySNet_empty net rows]
    exact ih rows

/-- A master with one POWER terminal whose pin geometry lies on layer 5. -/
def cMasters : List MasterRec := [⟨[⟨SigType.POWER, [⟨0, 2, [5]⟩]⟩]⟩]

/-- A special POWER net with one routed wire holding one horizontal
non-via box on layer 5 spanning y in [0, 2]. -/
def cPowerNets : List SNetRec :=
  [⟨true, SigType.POWER, [⟨true, [⟨true, false, 5, 0, 2⟩]⟩]⟩]

/-- A row whose bottom y = 1 lies inside the box above, with UNKNOWN
rails. -/
def cRow : ArchRow := ⟨1, 8, 1, 1, 0, 10, RowPower.UNK, RowPower.UNK⟩

/-- C5: the import pipeline never sets a row power label.  In
Optdp::import, createNetwork clears pwrLayers_ and gndLayers_ after
setupMasterPowers recorded them and before createArchitecture reads
them, so every shape fails the layer filter and every row keeps
UNKNOWN.  Concretely, layer 5 is recorded from the master power pin,
the POWER-net shape on layer 5 qualifies against the recorded sets and
vertically contains the row bottom y = 1, and labelling with the
still-recorded sets would set VDD, yet the pipeline leaves UNKNOWN. -/
theorem createArchitecture_row_power_cleared :
    (∀ masters nets rows, importRowPowers masters nets rows = rows) ∧
    (setupMasterPowersLayers cMasters).pwr = [5] ∧
    sboxQualifies (setupMasterPowersLayers cMasters) RowPower.VDD
      ⟨true, false, 5, 0, 2⟩ = true ∧
    ((0 : ℚ) ≤ cRow.bottom ∧ cRow.bottom ≤ 2) ∧
    (setRowPowers (setupMasterPowersLayers cMasters) cPowerNets [cRow]).map
      ArchRow.powerBot = [RowPower.VDD] ∧
    (importRowPowers cMasters cPowerNets [cRow]).map
      ArchRow.powerBot = [RowPower.UNK] := by
  refine ⟨fun masters nets rows => setRowPowers_empty nets rows, ?_, ?_, ?_, ?_, ?_⟩
  · rfl
  · rfl
  · constructor <;> norm_num [cRow]
  · norm_num [setRowPowers, cPowerNets, cRow, setupMasterPowersLayers, cMasters,
      recordedPwrLayers, recordedGndLayers, applySNet, applySWire, sboxQualifies,
      applyShapeToRow, ArchRow.getTop]
  · rw [importRowPowers, createNetworkLayerEffect, setRowPowers_empty]
    rfl

/-- A database instance as counted by Optdp::createNetwork: an external
id and whether its master type is core or block. -/
structure BuildInst where
  instId : ℕ
  coreOrBlock : Bool
  deriving DecidableEq

/-- A database net as seen while connecting pins: the instance ids
referenced by its instance terminals and the ids of its block
terminals. -/
structure NetRec where
  iterms : List ℕ
  bterms : List ℕ
  deriving DecidableEq

/-- A dpo Node reduced to the field the indexing claims read: the id
stored by setId. -/
structure NdNode where
  id : ℕ
  deriving DecidableEq

/-- A dpo Edge reduced to its stored id. -/
structure NdEdge where
  id : ℕ
  deriving DecidableEq

/-- Instance-node population of Optdp::createNetwork (lines 413-477):
the counter n starts at 0; every instance whose master is core or block
receives the node at index n, whose id is set to n, plus an instMap_
entry, and n advances.  Returns the nodes, the map entries and the
final counter. -/
def nodesForInsts (n : ℕ) : List BuildInst → List NdNode × List (ℕ × ℕ) × ℕ
  | [] => ([], [], n)
  | i :: is =>
    if i.coreOrBlock = true then
      ((⟨n⟩ : NdNode) :: (nodesForInsts (n + 1) is).1,
       (i.instId, n) :: (nodesForInsts (n + 1) is).2.1,
       (nodesForInsts (n + 1) is).2.2)
    else nodesForInsts n is

/-- Terminal-node population of Optdp::createNetwork (lines 478-518):
every block terminal receives the next node, with id n and a termMap_
entry. -/
def nodesForBTerms (n : ℕ) : List ℕ → List NdNode × List (ℕ × ℕ) × ℕ
  | [] => ([], [], n)
  | b :: bs =>
    ((⟨n⟩ : NdNode) :: (nodesForBTerms (n + 1) bs).1,
     (b, n) :: (nodesForBTerms (n + 1) bs).2.1,
     (nodesForBTerms (n + 1) bs).2.2)

/-- Edge population of Optdp::createNetwork (lines 526-603): edge e gets
id e. -/
def edgesForNets (e : ℕ) : List NetRec → List NdEdge
  | [] => []
  | _ :: nets => (⟨e⟩ : NdEdge) :: edgesForNets (e + 1) nets

/-- Node population of Optdp::createNetwork: core and block instances
first, then block terminals, sharing one running index; returns the
node table, instMap_ and termMap_. -/
def createNetworkNodes (insts : List BuildInst) (bterms : List ℕ) :
    List NdNode × List (ℕ × ℕ) × List (ℕ × ℕ) :=
  ((nodesForInsts 0 insts).1 ++
     (nodesForBTerms (nodesForInsts 0 insts).2.2 bterms).1,
   (nodesForInsts 0 insts).2.1,
   (nodesForBTerms (nodesForInsts 0 insts).2.2 bterms).2.1)

theorem nodesForInsts_id (is : List BuildInst) (n j : ℕ)
    (h : j < (nodesForInsts n is).1.length) :
    (nodesForInsts n is).1[j]? = some ⟨n + j⟩ := by
  induction is generalizing n j with
  | nil => simp [nodesForInsts] at h
  | cons i is ih =>
    by_cases hc : i.coreOrBlock = true
    · simp only [nodesForInsts, if_pos hc] at h ⊢
      cases j with
      | zero => simp
      | succ j2 =>
        rw [List.getElem?_cons_succ]
        have h2 : j2 < (nodesForInsts (n + 1) is).1.length := by
          simp only [List.length_cons] at h
          omega
        rw [ih (n + 1) j2 h2]
        simp only [Option.some.injEq, NdNode.mk.injEq]
        omega
    · simp only [nodesForInsts, if_neg hc] at h ⊢
      exact ih n j h

theorem nodesForBTerms_id (bs : List ℕ) (n j : ℕ)
    (h : j < (nodesForBTerms n bs).1.length) :
    (nodesForBTerms n bs).1[j]? = some ⟨n + j⟩ := by
  induction bs generalizing n j with
  | nil => simp [nodesForBTerms] at h
  | cons b bs ih =>
    simp only [nodesForBTerms] at h ⊢
    cases j with
    | zero => simp
    | succ j2 =>
      rw [List.getElem?_cons_succ]
      have h2 : j2 < (nodesForBTerms (n + 1) bs).1.length := by
        simp only [List.length_cons] at h
        omega
      rw [ih (n + 1) j2 h2]
      simp only [Option.some.injEq, NdNode.mk.injEq]
      omega

theorem nodesForInsts_counter (is : List BuildInst) (n : ℕ) :
    (nodesForInsts n is).2.2 = n + (nodesForInsts n is).1.length := by
  induction is generalizing n with
  | nil => simp [nodesForInsts]
  | cons i is ih =>
    by_cases hc : i.coreOrBlock = true
    · simp only [nodesForInsts, if_pos hc, List.length_cons]
      rw [ih (n + 1)]
      omega
    · simp only [nodesForInsts, if_neg hc]
      exact ih n

theorem edgesForNets_id (nets : List NetRec) (e j : ℕ)
    (h : j < (edgesForNets e nets).length) :
    (edgesForNets e nets)[j]? = some ⟨e + j⟩ := by
  induction nets generalizing e j with
  | nil => simp [edgesForNets] at h
  | cons nt nts ih =>
    simp only [edgesForNets] at h ⊢
    cases j with
    | zero => simp
    | succ j2 =>
      rw [List.getElem?_cons_succ]
      have h2 : j2 < (edgesForNets (e + 1) nts).length := by
        simp only [List.length_cons] at h
        omega
      rw [ih (e + 1) j2 h2]
      simp only [Option.some.injEq, NdEdge.mk.injEq]
      omega

theorem createNetworkNodes_id (insts : List BuildInst) (bterms : List ℕ)
    (j : ℕ) (h : j < (createNetworkNodes insts bterms).1.length) :
    (createNetworkNodes insts bterms).1[j]? = some ⟨j⟩ := by
  simp only [createNetworkNodes] at h ⊢
  by_cases hj : j < (nodesForInsts 0 insts).1.length
  · rw [List.getElem?_append_left hj, nodesForInsts_id insts 0 j hj]
    simp
  · push_neg at hj
    rw [List.getElem?_append_right hj]
    have h2 : j - (nodesForInsts 0 insts).1.length <
        (nodesForBTerms (nodesForInsts 0 insts).2.2 bterms).1.length := by
      rw [List.length_append] at h
      omega
    rw [nodesForBTerms_id _ _ _ h2]
    simp only [Option.some.injEq, NdNode.mk.injEq]
    rw [nodesForInsts_counter]
    omega

/-- Connection of one net reference in Optdp::createNetwork
(lines 539-600): a reference missing from the map is counted as one
error (DPO 106 for instances, DPO 107 for terminals) and no pin is
created; otherwise n is the id of the mapped node, the id consistency
of node n and edge e is checked (a divergence is counted, DPO 108 and
109), and a pin on node n and edge e is created regardless. -/
def connectRef (nodes : List NdNode) (edges : List NdEdge) (e : ℕ)
    (entry : Option ℕ) : ℕ × List (ℕ × ℕ) :=
  match entry with
  | none => (1, [])
  | some idx =>
    let n := (nodes.getD idx ⟨0⟩).id
    ((if (nodes.getD n ⟨0⟩).id ≠ n ∨ (edges.getD e ⟨0⟩).id ≠ e then 1 else 0),
     [(n, e)])

/-- The per-net reference loop: errors accumulate and pins append in
order. -/
def connectRefs (nodes : List NdNode) (edges : List NdEdge) (e : ℕ) :
    List (Option ℕ) → ℕ × List (ℕ × ℕ)
  | [] => (0, [])
  | en :: rest =>
    ((connectRef nodes edges e en).1 + (connectRefs nodes edges e rest).1,
     (connectRef nodes edges e en).2 ++ (connectRefs nodes edges e rest).2)

/-- The edge loop of Optdp::createNetwork (lines 526-603): net k is
edge e0 + k; its instance references are resolved through instMap_ and
its terminal references through termMap_. -/
def connectNets (nodes : List NdNode) (edges : List NdEdge)
    (imap tmap : List (ℕ × ℕ)) (e0 : ℕ) : List NetRec → ℕ × List (ℕ × ℕ)
  | [] => (0, [])
  | nt :: nts =>
    ((connectRefs nodes edges e0 (nt.iterms.map (fun r => imap.lookup r))).1 +
       (connectRefs nodes edges e0 (nt.bterms.map (fun r => tmap.lookup r))).1 +
       (connectNets nodes edges imap tmap (e0 + 1) nts).1,
     (connectRefs nodes edges e0 (nt.iterms.map (fun r => imap.lookup r))).2 ++
       (connectRefs nodes edges e0 (nt.bterms.map (fun r => tmap.lookup r))).2 ++
       (connectNets nodes edges imap tmap (e0 + 1) nts).2)

/-- Summary result of Optdp::createNetwork: node and edge tables, pins
as (node id, edge id) pairs, the error counter and whether the run ends
in the fatal DPO 101 report. -/
structure NetworkBuildResult where
  nodes : List NdNode
  edges : List NdEdge
  pins : List (ℕ × ℕ)
  errors : ℕ
  fatal : Bool
  deriving DecidableEq

/-- The counting loop of Optdp::createNetwork (lines 376-382): nNodes
counts the instances whose master is core or block. -/
def countCoreInsts (insts : List BuildInst) : ℕ :=
  (insts.filter (fun i => i.coreOrBlock)).length

/-- The counting loop of Optdp::createNetwork (lines 384-391): nPins
accumulates, for every net, the number of its instance terminals plus
the number of its block terminals. -/
def totalPinCount : List NetRec → ℕ
  | [] => 0
  | nt :: nts => nt.iterms.length + nt.bterms.length + totalPinCount nts

/-- The edge counter of the connect loop of Optdp::createNetwork
(lines 526-603): e advances once per net. -/
def finalEdgeCounter (e0 : ℕ) : List NetRec → ℕ
  | [] => e0
  | _ :: nts => finalEdgeCounter (e0 + 1) nts

/-- The full error counter of Optdp::createNetwork: the node-count
check of lines 519-523 (DPO 104), the per-reference and divergence
errors of the connect loop, the edge-count check of lines 604-608 and
the pin-count check of lines 609-613 (DPO 105).  The pin counter p
advances once per created pin, so the last check compares the number of
pins created against the pre-counted nPins and fires whenever some
reference was skipped. -/
def createNetworkErrors (insts : List BuildInst) (bterms : List ℕ)
    (nets : List NetRec) : ℕ :=
  (if (nodesForBTerms (nodesForInsts 0 insts).2.2 bterms).2.2 ≠
      countCoreInsts insts + bterms.length then 1 else 0) +
  (connectNets (createNetworkNodes insts bterms).1 (edgesForNets 0 nets)
    (createNetworkNodes insts bterms).2.1
    (createNetworkNodes insts bterms).2.2 0 nets).1 +
  (if finalEdgeCounter 0 nets ≠ nets.length then 1 else 0) +
  (if (connectNets (createNetworkNodes insts bterms).1 (edgesForNets 0 nets)
      (createNetworkNodes insts bterms).2.1
      (createNetworkNodes insts bterms).2.2 0 nets).2.length ≠
      totalPinCount nets then 1 else 0)

/-- Optdp::createNetwork (lines 352-621).  The fatal flag is modelled
from the spec: utl::Logger lives outside the inspected sources, and per
the spec error taxonomy the per-reference reports are counted and
non-fatal while the final DPO 101 report, issued exactly when the error
counter is nonzero, ends the run as a structural error. -/
def createNetwork (insts : List BuildInst) (bterms : List ℕ)
    (nets : List NetRec) : NetworkBuildResult :=
  { nodes := (createNetworkNodes insts bterms).1
    edges := edgesForNets 0 nets
    pins := (connectNets (createNetworkNodes insts bterms).1
      (edgesForNets 0 nets) (createNetworkNodes insts bterms).2.1
      (createNetworkNodes insts bterms).2.2 0 nets).2
    errors := createNetworkErrors insts bterms nets
    fatal := decide (createNetworkErrors insts bterms nets ≠ 0) }

theorem connectRef_le_connectRefs (nodes : List NdNode) (edges : List NdEdge)
    (e : ℕ) (en : Option ℕ) (entries : List (Option ℕ)) (hm : en ∈ entries) :
    (connectRef nodes edges e en).1 ≤ (connectRefs nodes edges e entries).1 := by
  induction entries with
  | nil => simp at hm
  | cons en2 rest ih =>
    rcases List.mem_cons.mp hm with h | h
    · subst h
      simp only [connectRefs]
      omega
    · have := ih h
      simp only [connectRefs]
      omega

theorem connectRefs_le_connectNets (nodes : List NdNode) (edges : List NdEdge)
    (imap tmap : List (ℕ × ℕ)) (e0 : ℕ) (nets : List NetRec) (j : ℕ)
    (nt : NetRec) (hj : nets[j]? = some nt) :
    (connectRefs nodes edges (e0 + j)
        (nt.iterms.map (fun r => imap.lookup r))).1 +
      (connectRefs nodes edges (e0 + j)
        (nt.bterms.map (fun r => tmap.lookup r))).1 ≤
      (connectNets nodes edges imap tmap e0 nets).1 := by
  induction nets generalizing e0 j with
  | nil => simp at hj
  | cons nt0 nts ih =>
    cases j with
    | zero =>
      simp only [List.getElem?_cons_zero, Option.some.injEq] at hj
      subst hj
      simp only [connectNets, Nat.add_zero]
      omega
    | succ j2 =>
      rw [List.getElem?_cons_succ] at hj
      have := ih (e0 + 1) j2 hj
      simp only [connectNets]
      have harith : e0 + 1 + j2 = e0 + (j2 + 1) := by omega
      rw [harith] at this
      omega

/-- C7: node and edge ids assigned by network construction equal their
storage index (dense in [0, count)); the pin-connection loop checks
this, a node or edge whose stored id differs from its index is counted,
every counted reference error reaches the run total, and the run ends
fatally exactly when the total is nonzero. -/
theorem createNetwork_dense_ids (insts : List BuildInst) (bterms : List ℕ)
    (nets : List NetRec) :
    (∀ j, j < (createNetwork insts bterms nets).nodes.length →
      (createNetwork insts bterms nets).nodes[j]? = some ⟨j⟩) ∧
    (∀ j, j < (createNetwork insts bterms nets).edges.length →
      (createNetwork insts bterms nets).edges[j]? = some ⟨j⟩) ∧
    (∀ nodes edges e idx,
      ((nodes.getD ((nodes.getD idx ⟨0⟩).id) ⟨0⟩).id ≠ (nodes.getD idx ⟨0⟩).id ∨
        (edges.getD e ⟨0⟩).id ≠ e) →
      (connectRef nodes edges e (some idx)).1 = 1) ∧
    (∀ nodes edges e en entries, en ∈ entries →
      (connectRef nodes edges e en).1 ≤ (connectRefs nodes edges e entries).1) ∧
    (∀ nodes edges imap tmap e0 nets2 j nt, nets2[j]? = some nt →
      (connectRefs nodes edges (e0 + j)
          (nt.iterms.map (fun r => imap.lookup r))).1 +
        (connectRefs nodes edges (e0 + j)
          (nt.bterms.map (fun r => tmap.lookup r))).1 ≤
        (connectNets nodes edges imap tmap e0 nets2).1) ∧
    ((createNetwork insts bterms nets).fatal = true ↔
      (createNetwork insts bterms nets).errors ≠ 0) := by
  refine ⟨?_, ?_, ?_, ?_, ?_, ?_⟩
  · intro j h
    exact createNetworkNodes_id insts bterms j h
  · intro j h
    have h2 := edgesForNets_id nets 0 j h
    simpa using h2
  · intro nodes edges e idx hdiv
    simp only [connectRef, if_pos hdiv]
  · intro nodes edges e en entries hm
    exact connectRef_le_connectRefs nodes edges e en entries hm
  · intro nodes edges imap tmap e0 nets2 j nt hj
    exact connectRefs_le_connectNets nodes edges imap tmap e0 nets2 j nt hj
  · simp only [createNetwork]
    constructor
    · intro h
      exact of_decide_eq_true h
    · intro h
      exact decide_eq_true h

theorem createNetwork_dense_ids_witness :
    (createNetwork [⟨7, true⟩] [9] []).nodes[0]? = some ⟨0⟩ ∧
    (connectRef [⟨5⟩] [⟨0⟩] 0 (some 0)).1 = 1 := by
  have h := createNetwork_dense_ids [⟨7, true⟩] [9] []
  refine ⟨h.1 0 ?_, h.2.2.1 [⟨5⟩] [⟨0⟩] 0 0 ?_⟩
  · simp [createNetwork, createNetworkNodes, nodesForInsts, nodesForBTerms]
  · left
    simp [List.getD]

/-- References of a net list that resolve to no node-map entry, counted
per net in order: the missing instance references plus the missing
terminal references. -/
def missingRefCount (imap tmap : List (ℕ × ℕ)) : List NetRec → ℕ
  | [] => 0
  | nt :: nts =>
    (nt.iterms.filter (fun r => (imap.lookup r).isNone)).length +
      (nt.bterms.filter (fun r => (tmap.lookup r).isNone)).length +
      missingRefCount imap tmap nts

/-- References of a net list that resolve through the node maps. -/
def resolvedRefCount (imap tmap : List (ℕ × ℕ)) : List NetRec → ℕ
  | [] => 0
  | nt :: nts =>
    (nt.iterms.filter (fun r => (imap.lookup r).isSome)).length +
      (nt.bterms.filter (fun r => (tmap.lookup r).isSome)).length +
      resolvedRefCount imap tmap nts

theorem connectRefs_count (nodes : List NdNode) (edges : List NdEdge) (e : ℕ)
    (entries : List (Option ℕ))
    (hgood : ∀ idx, some idx ∈ entries →
      (connectRef nodes edges e (some idx)).1 = 0) :
    (connectRefs nodes edges e entries).1 =
      (entries.filter (fun o => o.isNone)).length ∧
    (connectRefs nodes edges e entries).2.length =
      (entries.filter (fun o => o.isSome)).length := by
  induction entries with
  | nil => exact ⟨rfl, rfl⟩
  | cons en rest ih =>
    have hrest := ih (fun idx h => hgood idx (List.mem_cons_of_mem en h))
    cases en with
    | none =>
      simp only [connectRefs, connectRef, List.filter_cons, Option.isNone_none,
        Option.isSome_none, if_true, Bool.false_eq_true, if_false,
        List.length_cons, List.nil_append]
      omega
    | some idx =>
      have h0 := hgood idx (List.mem_cons_self (some idx) rest)
      simp only [connectRefs, h0, List.filter_cons, Option.isNone_some,
        Option.isSome_some, if_true, Bool.false_eq_true, if_false,
        List.length_append, List.length_cons]
      constructor
      · omega
      · have : (connectRef nodes edges e (some idx)).2.length = 1 := rfl
        omega

theorem count_entries_map (f : ℕ → Option ℕ) (l : List ℕ) :
    ((l.map f).filter (fun o => o.isNone)).length =
      (l.filter (fun r => (f r).isNone)).length ∧
    ((l.map f).filter (fun o => o.isSome)).length =
      (l.filter (fun r => (f r).isSome)).length := by
  induction l with
  | nil => exact ⟨rfl, rfl⟩
  | cons a l ih =>
    simp only [List.map_cons, List.filter_cons]
    cases hfa : f a with
    | none => simp [ih.1, ih.2]
    | some v => simp [ih.1, ih.2]

theorem connectNets_count (nodes : List NdNode) (edges : List NdEdge)
    (imap tmap : List (ℕ × ℕ)) (nets : List NetRec) (e0 : ℕ)
    (hNode : ∀ idx,
      (nodes.getD ((nodes.getD idx ⟨0⟩).id) ⟨0⟩).id = (nodes.getD idx ⟨0⟩).id)
    (hEdge : ∀ e, e0 ≤ e → e < e0 + nets.length → (edges.getD e ⟨0⟩).id = e) :
    (connectNets nodes edges imap tmap e0 nets).1 =
      missingRefCount imap tmap nets ∧
    (connectNets nodes edges imap tmap e0 nets).2.length =
      resolvedRefCount imap tmap nets := by
  induction nets generalizing e0 with
  | nil => exact ⟨rfl, rfl⟩
  | cons nt nts ih =>
    have hgood : ∀ idx, (connectRef nodes edges e0 (some idx)).1 = 0 := by
      intro idx
      have he : (edges.getD e0 ⟨0⟩).id = e0 := by
        apply hEdge e0 le_rfl
        simp only [List.length_cons]
        omega
      simp only [connectRef]
      rw [if_neg]
      push_neg
      exact ⟨hNode idx, he⟩
    have hci := connectRefs_count nodes edges e0
      (nt.iterms.map (fun r => imap.lookup r)) (fun idx _ => hgood idx)
    have hcb := connectRefs_count nodes edges e0
      (nt.bterms.map (fun r => tmap.lookup r)) (fun idx _ => hgood idx)
    have hmi := count_entries_map (fun r => imap.lookup r) nt.iterms
    have hmb := count_entries_map (fun r => tmap.lookup r) nt.bterms
    have hrest := ih (e0 + 1) (fun e he1 he2 => by
      apply hEdge e (by omega)
      simp only [List.length_cons]
      omega)
    simp only [connectNets, missingRefCount, resolvedRefCount,
      List.length_append]
    constructor
    · rw [hci.1, hcb.1, hmi.1, hmb.1, hrest.1]
    · rw [hci.2, hcb.2, hmi.2, hmb.2, hrest.2]

theorem edgesForNets_length (nets : List NetRec) (e : ℕ) :
    (edgesForNets e nets).length = nets.length := by
  induction nets generalizing e with
  | nil => rfl
  | cons nt nts ih =>
    simp only [edgesForNets, List.length_cons, ih]

theorem createNetworkNodes_getD (insts : List BuildInst) (bterms : List ℕ)
    (idx : ℕ) (h : idx < (createNetworkNodes insts bterms).1.length) :
    (createNetworkNodes insts bterms).1.getD idx ⟨0⟩ = ⟨idx⟩ := by
  rw [List.getD_eq_getElem?_getD, createNetworkNodes_id insts bterms idx h]
  rfl

theorem createNetworkNodes_hNode (insts : List BuildInst) (bterms : List ℕ)
    (idx : ℕ) :
    ((createNetworkNodes insts bterms).1.getD
        (((createNetworkNodes insts bterms).1.getD idx ⟨0⟩).id) ⟨0⟩).id =
      ((createNetworkNodes insts bterms).1.getD idx ⟨0⟩).id := by
  by_cases h : idx < (createNetworkNodes insts bterms).1.length
  · rw [createNetworkNodes_getD insts bterms idx h,
      createNetworkNodes_getD insts bterms idx h]
  · push_neg at h
    have hinner : (createNetworkNodes insts bterms).1.getD idx ⟨0⟩ = ⟨0⟩ := by
      rw [List.getD_eq_getElem?_getD, List.getElem?_eq_none h]
      rfl
    rw [hinner]
    by_cases h0 : 0 < (createNetworkNodes insts bterms).1.length
    · rw [createNetworkNodes_getD insts bterms 0 h0]
    · push_neg at h0
      rw [List.getD_eq_getElem?_getD, List.getElem?_eq_none (by omega)]
      rfl

theorem nodesForInsts_length (is : List BuildInst) (n : ℕ) :
    (nodesForInsts n is).1.length = countCoreInsts is := by
  induction is generalizing n with
  | nil => rfl
  | cons i is ih =>
    by_cases hc : i.coreOrBlock = true <;>
      simp [nodesForInsts, hc, countCoreInsts, List.filter_cons, ih]

theorem nodesForBTerms_counter (bs : List ℕ) (n : ℕ) :
    (nodesForBTerms n bs).2.2 = n + bs.length := by
  induction bs generalizing n with
  | nil => simp [nodesForBTerms]
  | cons b bs ih =>
    simp only [nodesForBTerms, List.length_cons]
    rw [ih (n + 1)]
    omega

theorem finalEdgeCounter_eq (nets : List NetRec) (e0 : ℕ) :
    finalEdgeCounter e0 nets = e0 + nets.length := by
  induction nets generalizing e0 with
  | nil => simp [finalEdgeCounter]
  | cons nt nts ih =>
    simp only [finalEdgeCounter, List.length_cons]
    rw [ih (e0 + 1)]
    omega

theorem createNetwork_node_count (insts : List BuildInst) (bterms : List ℕ) :
    (nodesForBTerms (nodesForInsts 0 insts).2.2 bterms).2.2 =
      countCoreInsts insts + bterms.length := by
  rw [nodesForBTerms_counter, nodesForInsts_counter, nodesForInsts_length]
  omega

theorem count_some_add_none (f : ℕ → Option ℕ) (l : List ℕ) :
    (l.filter (fun r => (f r).isSome)).length +
      (l.filter (fun r => (f r).isNone)).length = l.length := by
  induction l with
  | nil => rfl
  | cons a l ih =>
    simp only [List.filter_cons]
    cases hfa : f a with
    | none =>
      simp only [Option.isSome_none, Option.isNone_none, Bool.false_eq_true,
        if_false, if_true, List.length_cons]
      omega
    | some v =>
      simp only [Option.isSome_some, Option.isNone_some, Bool.false_eq_true,
        if_false, if_true, List.length_cons]
      omega

theorem resolved_add_missing (imap tmap : List (ℕ × ℕ)) (nets : List NetRec) :
    resolvedRefCount imap tmap nets + missingRefCount imap tmap nets =
      totalPinCount nets := by
  induction nets with
  | nil => rfl
  | cons nt nts ih =>
    simp only [resolvedRefCount, missingRefCount, totalPinCount]
    have h1 := count_some_add_none (fun r => imap.lookup r) nt.iterms
    have h2 := count_some_add_none (fun r => tmap.lookup r) nt.bterms
    omega

/-- C6: a pin whose referenced instance or terminal is not in the node
map creates no Pin and is counted as one error; the loop continues over
all remaining references and nets, so the connect-loop error count
equals the number of unresolvable references over all nets and the pins
created are exactly the resolvable references; the total the end of
network creation reports is that count plus the pin-count cross-check
DPO 105, which fires exactly when some reference was missing, and the
run is flagged fatal iff the total is nonzero rather than aborting at
the first missing reference. -/
theorem createNetwork_missing_refs (insts : List BuildInst) (bterms : List ℕ)
    (nets : List NetRec) :
    (connectNets (createNetworkNodes insts bterms).1 (edgesForNets 0 nets)
        (createNetworkNodes insts bterms).2.1
        (createNetworkNodes insts bterms).2.2 0 nets).1 =
      missingRefCount (createNetworkNodes insts bterms).2.1
        (createNetworkNodes insts bterms).2.2 nets ∧
    (createNetwork insts bterms nets).pins.length =
      resolvedRefCount (createNetworkNodes insts bterms).2.1
        (createNetworkNodes insts bterms).2.2 nets ∧
    (createNetwork insts bterms nets).errors =
      missingRefCount (createNetworkNodes insts bterms).2.1
        (createNetworkNodes insts bterms).2.2 nets +
      (if missingRefCount (createNetworkNodes insts bterms).2.1
          (createNetworkNodes insts bterms).2.2 nets = 0 then 0 else 1) ∧
    (createNetwork insts bterms nets).fatal =
      decide ((createNetwork insts bterms nets).errors ≠ 0) := by
  have hEdge : ∀ e, 0 ≤ e → e < 0 + nets.length →
      ((edgesForNets 0 nets).getD e ⟨0⟩).id = e := by
    intro e _ he
    have hlen : e < (edgesForNets 0 nets).length := by
      rw [edgesForNets_length]
      omega
    rw [List.getD_eq_getElem?_getD, edgesForNets_id nets 0 e hlen]
    simp
  have h := connectNets_count (createNetworkNodes insts bterms).1
    (edgesForNets 0 nets) (createNetworkNodes insts bterms).2.1
    (createNetworkNodes insts bterms).2.2 nets 0
    (createNetworkNodes_hNode insts bterms) hEdge
  have hnode := createNetwork_node_count insts bterms
  have hsum := resolved_add_missing (createNetworkNodes insts bterms).2.1
    (createNetworkNodes insts bterms).2.2 nets
  refine ⟨h.1, h.2, ?_, rfl⟩
  simp only [createNetwork, createNetworkErrors]
  rw [h.1, h.2, if_neg (not_ne_iff.mpr hnode),
    if_neg (not_ne_iff.mpr (by rw [finalEdgeCounter_eq]; omega))]
  by_cases hmiss : missingRefCount (createNetworkNodes insts bterms).2.1
      (createNetworkNodes insts bterms).2.2 nets = 0
  · rw [if_neg (not_ne_iff.mpr (by omega)), if_pos hmiss]
    omega
  · rw [if_pos (by omega), if_neg hmiss]
    omega

/-- A database group (a dbRegion with a parent) as read by
Optdp::setUpPlacementRegions: its boundary rectangles and the node
indices of its member instances found in instMap_. -/
structure GroupRec where
  hasParent : Bool
  boundaries : List RectQ
  members : List ℕ
  deriving DecidableEq

/-- An Architecture::Region reduced to the fields the region claims
read: id and rectangles. -/
structure RegionRec where
  id : ℕ
  rects : List RectQ
  deriving DecidableEq

/-- Boundary clamping of Optdp::setUpPlacementRegions (lines 836-845):
each group boundary rectangle is clamped to the architecture bounds. -/
def clampRect (bounds : RectQ) (b : RectQ) : RectQ :=
  ⟨max bounds.rxMin b.rxMin, max bounds.ryMin b.ryMin,
   min bounds.rxMax b.rxMax, min bounds.ryMax b.ryMax⟩

/-- The member loop of Optdp::setUpPlacementRegions (lines 852-861): a
member node is reassigned to the group region id only while its region
id is still 0. -/
def assignMembers (gid : ℕ) : List ℕ → List ℕ → List ℕ
  | [], ids => ids
  | m :: rest, ids =>
    assignMembers gid rest (if ids[m]? = some 0 then ids.set m gid else ids)

/-- The group loop of Optdp::setUpPlacementRegions (lines 827-863):
each database group with a parent becomes the region with the next id,
and its members are assigned; groups without a parent are skipped. -/
def processGroups (bounds : RectQ) : ℕ → List GroupRec → List ℕ →
    List RegionRec × List ℕ × ℕ
  | count, [], ids => ([], ids, count)
  | count, g :: gs, ids =>
    if g.hasParent = true then
      ((⟨count, g.boundaries.map (clampRect bounds)⟩ : RegionRec) ::
         (processGroups bounds (count + 1) gs
           (assignMembers count g.members ids)).1,
       (processGroups bounds (count + 1) gs
         (assignMembers count g.members ids)).2)
    else processGroups bounds count gs ids

/-- Optdp::setUpPlacementRegions (lines 800-865): region 0 is created
first, covering the full architecture bounding box, every node arrives
with region id 0 from createNetwork (lines 473-474 and 515), and the
groups are then processed in order with ids counted from 1. -/
def setUpPlacementRegions (bounds : RectQ) (groups : List GroupRec)
    (numNodes : ℕ) : List RegionRec × List ℕ :=
  ((⟨0, [⟨bounds.rxMin, bounds.ryMin, bounds.rxMax, bounds.ryMax⟩]⟩ : RegionRec) ::
     (processGroups bounds 1 groups (List.replicate numNodes 0)).1,
   (processGroups bounds 1 groups (List.replicate numNodes 0)).2.1)

/-- The region id the spec predicts for node m: the id of the first
parented group containing m, with parented groups numbered from firstId
in order, or 0 when no parented group contains m. -/
def firstGroupRegionId (firstId : ℕ) : List GroupRec → ℕ → ℕ
  | [], _ => 0
  | g :: gs, m =>
    if g.hasParent = true then
      (if m ∈ g.members then firstId else firstGroupRegionId (firstId + 1) gs m)
    else firstGroupRegionId firstId gs m

theorem assignMembers_getElem (gid : ℕ) (ms : List ℕ) (ids : List ℕ) (m : ℕ)
    (hgid : gid ≠ 0) :
    (assignMembers gid ms ids)[m]? =
      if m ∈ ms ∧ ids[m]? = some 0 then some gid else ids[m]? := by
  induction ms generalizing ids with
  | nil => simp [assignMembers]
  | cons m0 rest ih =>
    simp only [assignMembers]
    by_cases hm0 : ids[m0]? = some 0
    · rw [if_pos hm0, ih (ids.set m0 gid)]
      by_cases hmm : m = m0
      · subst hmm
        have hlt : m < ids.length := by
          by_contra hge
          push_neg at hge
          rw [List.getElem?_eq_none hge] at hm0
          cases hm0
        have hset : (ids.set m gid)[m]? = some gid := by
          rw [List.getElem?_set]
          simp [hlt]
        rw [hset]
        rw [ite_self, if_pos ⟨List.mem_cons_self m rest, hm0⟩]
      · have hset : (ids.set m0 gid)[m]? = ids[m]? :=
          List.getElem?_set_ne (Ne.symm hmm)
        rw [hset]
        simp [List.mem_cons, hmm]
    · rw [if_neg hm0, ih ids]
      by_cases hmm : m = m0
      · subst hmm
        simp [hm0]
      · simp [List.mem_cons, hmm]

theorem processGroups_ids (bounds : RectQ) (groups : List GroupRec)
    (count : ℕ) (ids : List ℕ) (m : ℕ) (hc : 0 < count) :
    (processGroups bounds count groups ids).2.1[m]? =
      (ids[m]?).map
        (fun v => if v = 0 then firstGroupRegionId count groups m else v) := by
  induction groups generalizing count ids with
  | nil =>
    simp only [processGroups, firstGroupRegionId]
    cases hv : ids[m]? with
    | none => rfl
    | some v =>
      by_cases hv0 : v = 0
      · subst hv0
        simp
      · simp [hv0]
  | cons g gs ih =>
    by_cases hp : g.hasParent = true
    · simp only [processGroups, if_pos hp]
      rw [ih (count + 1) (assignMembers count g.members ids) (by omega)]
      rw [assignMembers_getElem count g.members ids m (by omega)]
      simp only [firstGroupRegionId, if_pos hp]
      by_cases hmem : m ∈ g.members
      · by_cases h0 : ids[m]? = some 0
        · rw [if_pos ⟨hmem, h0⟩, h0]
          simp [hmem, (show count ≠ 0 by omega)]
        · rw [if_neg (by tauto)]
          cases hv : ids[m]? with
          | none => rfl
          | some v =>
            have hvne : v ≠ 0 := by
              intro hz
              subst hz
              exact h0 hv
            simp [hvne]
      · rw [if_neg (by tauto)]
        simp [hmem]
    · simp only [processGroups, if_neg hp, firstGroupRegionId]
      exact ih count ids hc

theorem assignMembers_length (gid : ℕ) (ms : List ℕ) (ids : List ℕ) :
    (assignMembers gid ms ids).length = ids.length := by
  induction ms generalizing ids with
  | nil => rfl
  | cons m0 rest ih =>
    simp only [assignMembers]
    rw [ih]
    split
    · exact List.length_set ids m0 gid
    · rfl

theorem processGroups_length (bounds : RectQ) (groups : List GroupRec)
    (count : ℕ) (ids : List ℕ) :
    (processGroups bounds count groups ids).2.1.length = ids.length := by
  induction groups generalizing count ids with
  | nil => rfl
  | cons g gs ih =>
    by_cases hp : g.hasParent = true
    · simp only [processGroups, if_pos hp]
      rw [ih (count + 1) (assignMembers count g.members ids)]
      exact assignMembers_length count g.members ids
    · simp only [processGroups, if_neg hp]
      exact ih count ids

/-- C9: after region setup every node has exactly one region id: region
0 is created first and covers the full placement bounding box, every
node starts at region 0, and a node in a database group is reassigned
only while its id is still 0, so a node listed in several groups keeps
the id of the first parented group containing it and ungrouped nodes
keep region 0. -/
theorem setUpPlacementRegions_first_group (bounds : RectQ)
    (groups : List GroupRec) (n m : ℕ) (hm : m < n) :
    (setUpPlacementRegions bounds groups n).1[0]? =
      some ⟨0, [⟨bounds.rxMin, bounds.ryMin, bounds.rxMax, bounds.ryMax⟩]⟩ ∧
    (setUpPlacementRegions bounds groups n).2.length = n ∧
    (setUpPlacementRegions bounds groups n).2[m]? =
      some (firstGroupRegionId 1 groups m) := by
  refine ⟨by simp [setUpPlacementRegions], ?_, ?_⟩
  · simp only [setUpPlacementRegions]
    rw [processGroups_length]
    exact List.length_replicate n 0
  · simp only [setUpPlacementRegions]
    rw [processGroups_ids bounds groups 1 _ m (by omega),
      List.getElem?_replicate_of_lt hm]
    simp

theorem setUpPlacementRegions_first_group_witness :
    (setUpPlacementRegions ⟨0, 0, 10, 10⟩
      [⟨true, [], [0, 1]⟩, ⟨true, [], [1]⟩] 2).2[1]? = some 1 := by
  have h := setUpPlacementRegions_first_group ⟨0, 0, 10, 10⟩
    [⟨true, [], [0, 1]⟩, ⟨true, [], [1]⟩] 2 1 (by omega)
  rw [h.2.2]
  decide

/-- The observable actions and reported metrics of
Optdp::improvePlacement. -/
structure ImproveTrace where
  imported : Bool
  legalized : Bool
  optimized : Bool
  wroteBack : Bool
  hpwlBefore : ℚ
  hpwlAfter : ℚ
  deriving DecidableEq

/-- Optdp::improvePlacement (lines 96-171), generic over the database
state and over the import, legalize, improve, write-back pipeline (the
shift legalizer and the scripted optimizer live outside the inspected
sources): when the initial hpwl is nonzero the pipeline runs and the
final hpwl is recomputed from the resulting state; when it is zero the
pipeline is skipped, the state is untouched, and hpwlAfter_ is set to
hpwlBefore_. -/
def improvePlacement {α : Type} (hpwl : α → ℚ) (pipeline : α → α) (db : α) :
    α × ImproveTrace :=
  if hpwl db ≠ 0 then
    (pipeline db, ⟨true, true, true, true, hpwl db, hpwl (pipeline db)⟩)
  else
    (db, ⟨false, false, false, false, hpwl db, hpwl db⟩)

/-- C10: if the initial half-perimeter wirelength is zero,
improvePlacement performs no import, no legalization and no
optimization pass, leaves the database state, and with it every
instance location and orientation, unchanged, and reports a final hpwl
equal to the initial hpwl. -/
theorem improvePlacement_zero_hpwl {α : Type} (hpwl : α → ℚ)
    (pipeline : α → α) (db : α) (h : hpwl db = 0) :
    (improvePlacement hpwl pipeline db).1 = db ∧
    (improvePlacement hpwl pipeline db).2.imported = false ∧
    (improvePlacement hpwl pipeline db).2.legalized = false ∧
    (improvePlacement hpwl pipeline db).2.optimized = false ∧
    (improvePlacement hpwl pipeline db).2.wroteBack = false ∧
    (improvePlacement hpwl pipeline db).2.hpwlAfter =
      (improvePlacement hpwl pipeline db).2.hpwlBefore := by
  simp [improvePlacement, h]

theorem improvePlacement_zero_hpwl_witness :
    (improvePlacement (fun _ : List DbInstState => (0 : ℚ))
      (fun _ => []) [⟨true, 3, 4, DbOrient.R0⟩]).1 =
      [⟨true, 3, 4, DbOrient.R0⟩] ∧
    (improvePlacement (fun _ : List DbInstState => (0 : ℚ))
      (fun _ => []) [⟨true, 3, 4, DbOrient.R0⟩]).2.imported = false := by
  have h := improvePlacement_zero_hpwl (fun _ : List DbInstState => (0 : ℚ))
    (fun _ => []) [⟨true, 3, 4, DbOrient.R0⟩] rfl
  exact ⟨h.1, h.2.1⟩
